import Mathlib

/-!
Verification of the incremental-ingestion pipeline of
`src/langchain_blob_ai_search.py` (class `LangchainBlobAISearch`), by a
shallow embedding of its data model and operations.

Conventions of the embedding:
* the sqlite table `checked_files (id INTEGER PRIMARY KEY, file_name TEXT)`
  is a list of rows together with the next synthetic key;
* sqlite operations are modelled on their success path; the one in-code
  failure that `__check_availablity` catches (the query raising) is modelled
  by an explicit `queryFails` flag, and the Python `None` falling out of the
  swallowed exception is `Option.none`;
* the external effects of `trigger_pipeline` (downloads, temp-file writes,
  extraction, upload calls, sqlite inserts, log lines) are recorded in an
  event trace, and the mutable state (ledger database, `temp/blob` directory
  listing, uuid generator position) is passed explicitly;
* `uuid.uuid1()` is an abstract supply `Nat → String` of freshly generated
  identifiers, consumed at successive positions;
* the remote search service's `upload_documents` either succeeds or raises,
  decided by an oracle `uploadOk`; the code catches and logs the failure.
-/

set_option linter.unusedVariables false

namespace BlobAISearch

/-- One row of the sqlite table `checked_files (id INTEGER PRIMARY KEY, file_name TEXT)`
created by `__create_sqlite_database`.  `id` is the synthetic key, `file_name` the
recorded blob name. -/
structure Row where
  id : Nat
  file_name : String
  deriving Repr, DecidableEq

/-- The ledger database `database/file_check_in.db`: the rows of `checked_files`
plus the next value of the synthetic primary key. -/
structure DB where
  nextId : Nat
  rows : List Row
  deriving Repr, DecidableEq

/-- Embeds `__insert_new_file_into_db`: `INSERT INTO checked_files (file_name) VALUES (?)`
appends one new row keyed by the next synthetic id.  There is no uniqueness
constraint on `file_name`. -/
def insert_new_file_into_db (db : DB) (file_name : String) : DB :=
  { nextId := db.nextId + 1
    rows := db.rows ++ [{ id := db.nextId, file_name := file_name }] }

/-- Embeds `__check_availablity`: `SELECT * FROM checked_files WHERE file_name == (?)`,
then `len(results) > 0` selects `False`, otherwise `True`.  When the query raises
(`queryFails = true`) the exception is caught and logged and the Python function
falls through to an implicit `return None`, modelled by `none`. -/
def check_availablity (db : DB) (file_name : String) (queryFails : Bool) : Option Bool :=
  if queryFails then
    none
  else
    let results := db.rows.filter (fun r => r.file_name == file_name)
    if results.length > 0 then some false else some true

/-- Membership of a name in the ledger: some row of `checked_files` carries it. -/
def hasName (db : DB) (n : String) : Bool :=
  db.rows.any (fun r => r.file_name == n)

/-- Python truthiness of the value `__check_availablity` returns: `None` is falsy,
a boolean is itself.  `trigger_pipeline` branches on `if self.__check_availablity(...)`. -/
def optTruthy : Option Bool → Bool
  | some b => b
  | none => false

/-- Python's `str.split(sep)` on a character list: splits at every occurrence of
`sep`, dropping the separator; consecutive separators produce empty pieces, and
the empty input produces one empty piece, exactly as in Python. -/
def splitOnChar (sep : Char) : List Char → List (List Char)
  | [] => [[]]
  | c :: cs =>
    match splitOnChar sep cs with
    | [] => [[c]]
    | p :: ps => if c = sep then [] :: p :: ps else (c :: p) :: ps

/-- Embeds `str(unique_id).split('-')[0]` from `__document_generator`: the short
id taken from a generated identifier is everything before its first dash. -/
def shortId (s : String) : String :=
  String.mk ((splitOnChar '-' s.toList).headD [])

/-- Embeds `blob.name.split('/')[-1]` from `trigger_pipeline`: the trailing path
segment of a blob name. -/
def lastSegment (s : String) : String :=
  String.mk ((splitOnChar '/' s.toList).getLastD [])

/-- Modelled from the spec: the text splitter used by `__chunk_text` is
langchain's `RecursiveCharacterTextSplitter` with `separators=['\n', ' ', '.']`,
whose implementation is not part of this repository's sources.  Splitting that
keeps the separator character attached to the piece that follows it, so that
concatenating the pieces gives back the text. -/
def splitKeepFront (sep : Char) : List Char → List (List Char)
  | [] => [[]]
  | c :: cs =>
    match splitKeepFront sep cs with
    | [] => [[c]]
    | p :: ps => if c = sep then [] :: (c :: p) :: ps else (c :: p) :: ps

/-- Modelled from the spec: hard fallback of the splitter, cutting a piece that
contains no usable separator into blocks of at most `S` characters.  The fuel is
the length of the input, which suffices whenever `1 ≤ S`. -/
def chopGo (S : Nat) : Nat → List Char → List (List Char)
  | _, [] => []
  | 0, cs => [cs]
  | fuel + 1, cs => cs.take S :: chopGo S fuel (cs.drop S)

/-- Modelled from the spec: cut a character list into blocks of at most `S`. -/
def chop (S : Nat) (cs : List Char) : List (List Char) :=
  chopGo S cs.length cs

/-- Modelled from the spec: the splitter splits preferentially on paragraph
breaks (newline), then spaces, then sentence terminators (periods); a piece
still longer than `S` after all separators is cut hard.  Every produced piece
has length at most `S` when `1 ≤ S`. -/
def splitPieces (S : Nat) (cs : List Char) : List (List Char) :=
  (splitKeepFront '\n' cs).flatMap (fun p =>
    if p.length ≤ S then [p] else
      (splitKeepFront ' ' p).flatMap (fun q =>
        if q.length ≤ S then [q] else
          (splitKeepFront '.' q).flatMap (fun r =>
            if r.length ≤ S then [r] else chop S r)))

/-- Last `n` characters of a character list, the overlap context carried from
one chunk into the next. -/
def takeLast (n : Nat) (cs : List Char) : List Char :=
  cs.drop (cs.length - n)

/-- Modelled from the spec: greedy merge of the split pieces into chunks of at
most `S` characters; when a chunk is emitted, the next one starts from the last
`O` characters of it (the repeated overlap context), dropped again if it would
push the chunk over `S`. -/
def mergeGo (S O : Nat) (buf : List Char) : List (List Char) → List (List Char)
  | [] => if buf.isEmpty then [] else [buf]
  | p :: ps =>
    if buf.length + p.length ≤ S then
      mergeGo S O (buf ++ p) ps
    else
      buf :: mergeGo S O
        (if (takeLast O buf).length + p.length ≤ S then takeLast O buf ++ p else p) ps

/-- Modelled from the spec: `RecursiveCharacterTextSplitter.split_text` with
`separators=['\n', ' ', '.']`, `chunk_size = S`, `chunk_overlap = O` — split on
the separator hierarchy, then merge into chunks of at most `S` characters with
`O` characters of overlap context; empty text yields no chunks. -/
def split_text (S O : Nat) (text : String) : List String :=
  (mergeGo S O [] (splitPieces S text.toList)).map (fun cs => String.mk cs)

/-- Embeds `__chunk_text (chunk_size=2048, overlap=256)`: reading the extracted
text back from `temp/txt` is modelled as the identity, and the splitter is the
spec-modelled `split_text`. -/
def chunk_text (chunk_size : Nat := 2048) (overlap : Nat := 256) (text : String) : List String :=
  split_text chunk_size overlap text

/-- The unit sent to the search index by `__document_generator`:
`{"id": ..., "content": ..., "metadata_storage_path": ...}`. -/
structure UploadDocument where
  id : String
  content : String
  metadata_storage_path : String
  deriving Repr, DecidableEq

/-- Loop body of `__document_generator`: the chunk at position `i` consumes the
freshly generated identifier `gen i` (one `uuid.uuid1()` call per chunk) and
becomes a document whose id is the identifier's short prefix. -/
def documentGeneratorGo (gen : Nat → String) (file_name : String) : Nat → List String → List UploadDocument
  | _, [] => []
  | i, c :: cs =>
    { id := shortId (gen i), content := c, metadata_storage_path := file_name }
      :: documentGeneratorGo gen file_name (i + 1) cs

/-- Embeds `__document_generator(chunks, file_name)`: one document per chunk,
ids drawn from the identifier supply starting at position 0. -/
def document_generator (gen : Nat → String) (chunks : List String) (file_name : String) : List UploadDocument :=
  documentGeneratorGo gen file_name 0 chunks

/-- A concrete identifier supply for which all generated identifiers are
pairwise distinct while all their short prefixes coincide. -/
def uuidGenDemo (n : Nat) : String :=
  "aaaaaaaa-" ++ String.mk (List.replicate n 'x')

/-- A concrete identifier supply whose short prefixes are pairwise distinct. -/
def freshGenDemo (n : Nat) : String :=
  String.mk (List.replicate n 'x') ++ "-y"

/-- One observable effect of a `trigger_pipeline` run, in program order:
log lines, the blob download, the temp-file write, the extraction call, the
`upload_documents` call, the ledger insert, and the temp-file removal. -/
inductive Event where
  | logInfo (msg : String)
  | logWarn (msg : String)
  | logError (msg : String)
  | download (blobName : String)
  | writeFile (path : String)
  | extractFrom (path : String)
  | uploadCall (docs : List UploadDocument)
  | insertRow (file_name : String)
  | removeFile (path : String)
  deriving Repr, DecidableEq

/-- The external collaborators of the pipeline: the text extractor
(`UnstructuredFileLoader`, keyed by the path it is pointed at), the
`uuid.uuid1()` supply, and whether a given `upload_documents` call succeeds. -/
structure Env where
  extractText : String → String
  uuidSupply : Nat → String
  uploadOk : List UploadDocument → Bool

/-- The mutable state `trigger_pipeline` threads along: the ledger database,
the listing of the `temp/blob` scratch directory, and the position of the
identifier supply. -/
structure PState where
  db : DB
  tempBlob : List String
  uuidCtr : Nat
  deriving Repr, DecidableEq

/-- Writing `temp/blob/<base>` (mode `wb`): creates the directory entry if it
is not present, otherwise overwrites in place. -/
def writeTempFile (listing : List String) (base : String) : List String :=
  if listing.contains base then listing else listing ++ [base]

/-- Embeds the path construction of `__get_file_name`: `os.path.join` of
`temp/<type>` with each directory entry. -/
def file_paths (ty : String) (listing : List String) : List String :=
  listing.map (fun f => "temp/" ++ ty ++ "/" ++ f)

/-- Embeds `__get_file_name(type)`: `file_paths[0]`, the FIRST entry of the
directory listing of `temp/<type>`; `none` models the `IndexError` on an empty
listing. -/
def get_file_name (ty : String) (listing : List String) : Option String :=
  (file_paths ty listing).head?

/-- The path `__pdf_to_text` extracts from while `trigger_pipeline` processes
`blobName`: the first entry of the `temp/blob` listing after the blob was
written there.  The listing is nonempty at this point, so the `IndexError`
default is unreachable. -/
def extractPathOf (s : PState) (blobName : String) : String :=
  (get_file_name "blob" (writeTempFile s.tempBlob (lastSegment blobName))).getD ""

/-- The text `__pdf_to_text` leaves in `temp/txt/temp.txt` for this blob; the
write-then-read round trip through `temp/txt` is modelled as the identity. -/
def extractedText (env : Env) (s : PState) (blobName : String) : String :=
  env.extractText (extractPathOf s blobName)

/-- The chunks `__chunk_text()` returns for this blob (default parameters
`chunk_size=2048, overlap=256`). -/
def chunksOf (env : Env) (s : PState) (blobName : String) : List String :=
  chunk_text 2048 256 (extractedText env s blobName)

/-- The documents `__document_generator(chunks, blob.name)` builds for this
blob, consuming the identifier supply from the current position. -/
def builtDocs (env : Env) (s : PState) (blobName : String) : List UploadDocument :=
  document_generator (fun i => env.uuidSupply (s.uuidCtr + i)) (chunksOf env s blobName) blobName

/-- Embeds `__upload_documents`: the call is made; when it raises, the
exception is caught and logged, and nothing is re-raised. -/
def upload_documents (env : Env) (docs : List UploadDocument) : List Event :=
  if env.uploadOk docs then
    [Event.uploadCall docs]
  else
    [Event.uploadCall docs, Event.logError "Failed uploading of documents"]

/-- Embeds one iteration of the `for blob in blobs` loop of `trigger_pipeline`:
consult the ledger; on a new file, download, write the scratch copy, extract,
chunk, build documents, upload (failures swallowed), insert the ledger row,
remove the scratch copy; otherwise only log the skip. -/
def processBlob (env : Env) (s : PState) (blobName : String) : PState × List Event :=
  if optTruthy (check_availablity s.db blobName false) then
    ({ db := insert_new_file_into_db s.db blobName
       tempBlob := (writeTempFile s.tempBlob (lastSegment blobName)).erase (lastSegment blobName)
       uuidCtr := s.uuidCtr + (chunksOf env s blobName).length },
     [Event.logInfo ("Intializing process for " ++ blobName),
      Event.download blobName,
      Event.writeFile ("temp/blob/" ++ lastSegment blobName),
      Event.extractFrom (extractPathOf s blobName),
      Event.logInfo "Uploading documents to the AI search"]
       ++ upload_documents env (builtDocs env s blobName)
       ++ [Event.insertRow blobName,
           Event.removeFile ("temp/blob/" ++ lastSegment blobName)])
  else
    (s, [Event.logWarn (blobName ++ " has already been processed")])

/-- The `for blob in blobs` loop of `trigger_pipeline`, in listing order,
threading the state and concatenating the event traces. -/
def runBlobs (env : Env) (s : PState) : List String → PState × List Event
  | [] => (s, [])
  | b :: bs =>
    ((runBlobs env (processBlob env s b).1 bs).1,
     (processBlob env s b).2 ++ (runBlobs env (processBlob env s b).1 bs).2)

/-- Embeds `trigger_pipeline()` against a container whose listing is `blobs`:
the opening log line followed by the per-blob loop. -/
def trigger_pipeline (env : Env) (s : PState) (blobs : List String) : PState × List Event :=
  ((runBlobs env s blobs).1,
   Event.logInfo "Pipeline Triggered" :: (runBlobs env s blobs).2)

/-- A Python value passed as the `index_name` argument of
`LangchainBlobAISearch.__init__`: a `str`, an `int`, or anything else. -/
inductive PyVal where
  | pstr (s : String)
  | pint (n : Int)
  | pnone
  deriving Repr, DecidableEq

/-- Embeds `isinstance(index_name, (str, int))`. -/
def isStrOrInt : PyVal → Bool
  | .pstr _ => true
  | .pint _ => true
  | .pnone => false

/-- Embeds `index_name != ''`: only the empty string compares equal to `''`. -/
def notEmptyStr : PyVal → Bool
  | .pstr s => s != ""
  | .pint _ => true
  | .pnone => true

/-- Embeds Python's `str()` on the accepted values. -/
def pyStr : PyVal → String
  | .pstr s => s
  | .pint n => toString n
  | .pnone => "None"

/-- Embeds the validation branch of `__init__` (lines 39-43): on a valid name,
`self.index_name` is assigned `str(index_name)`; otherwise an error is logged
and `ValueError(...)` is constructed but never raised, so the branch completes
with `self.index_name` left unassigned (`none`). -/
def validateIndexName (index_name : PyVal) : Option String :=
  if isStrOrInt index_name && notEmptyStr index_name then
    some (pyStr index_name)
  else
    none

/-- The exception `__init__` can end in within the modelled fragment: reading a
never-assigned attribute raises `AttributeError` in Python. -/
inductive PyError where
  | attributeError (name : String)
  deriving Repr, DecidableEq

/-- Embeds line 47 of `__init__`: `SearchClient(endpoint, self.index_name, credential)`
reads `self.index_name`; when the attribute was never assigned, the read raises
`AttributeError`. -/
def initSearchClientStep (index_name_attr : Option String) : Except PyError String :=
  match index_name_attr with
  | some v => Except.ok v
  | none => Except.error (PyError.attributeError "index_name")

/-- The fragment of `__init__` from the validation branch to the `SearchClient`
construction, as a function of the `index_name` argument: the index name the
constructor ends up using, or the exception that escapes to the caller. -/
def initIndexName (index_name : PyVal) : Except PyError String :=
  initSearchClientStep (validateIndexName index_name)

/-- A concrete environment used to instantiate theorems about the pipeline. -/
def sampleEnv : Env where
  extractText := fun _ => "hello world"
  uuidSupply := fun n => String.mk (List.replicate n 'x') ++ "-y"
  uploadOk := fun _ => true

/-- A concrete environment whose `upload_documents` call always raises. -/
def failingUploadEnv : Env where
  extractText := fun _ => "hello world"
  uuidSupply := fun n => String.mk (List.replicate n 'x') ++ "-y"
  uploadOk := fun _ => false

/-- The initial state: empty ledger, empty scratch directory. -/
def emptyState : PState where
  db := { nextId := 0, rows := [] }
  tempBlob := []
  uuidCtr := 0

/-- A state whose ledger already records the file `a.pdf`. -/
def seenState : PState where
  db := { nextId := 1, rows := [{ id := 0, file_name := "a.pdf" }] }
  tempBlob := []
  uuidCtr := 0

/-- On the success path, `__check_availablity` computes exactly the negation of
ledger membership. -/
theorem check_availablity_eq_not_hasName (db : DB) (n : String) :
    check_availablity db n false = some (!hasName db n) := by
  unfold check_availablity hasName
  simp only [Bool.false_eq_true, if_false]
  cases h : db.rows.any (fun r => r.file_name == n) with
  | false =>
    have hfil : db.rows.filter (fun r => r.file_name == n) = [] := by
      rw [List.filter_eq_nil_iff]
      intro r hr
      have := List.any_eq_false.mp h r hr
      simpa using this
    simp [hfil]
  | true =>
    obtain ⟨r, hr, hrn⟩ := List.any_eq_true.mp h
    have hmem : r ∈ db.rows.filter (fun r => r.file_name == n) :=
      List.mem_filter.mpr ⟨hr, hrn⟩
    have hpos : 0 < (db.rows.filter (fun r => r.file_name == n)).length :=
      List.length_pos.mpr (List.ne_nil_of_mem hmem)
    simp [hpos]

/-- Inserting a name makes the ledger contain it. -/
theorem hasName_insert_self (db : DB) (n : String) :
    hasName (insert_new_file_into_db db n) n = true := by
  simp [hasName, insert_new_file_into_db, List.any_append]

/-- Inserting never removes a recorded name. -/
theorem hasName_insert_of_hasName (db : DB) (m n : String) (h : hasName db m = true) :
    hasName (insert_new_file_into_db db n) m = true := by
  unfold hasName at h ⊢
  simp [insert_new_file_into_db, List.any_append, h]

/-- A blob whose name the ledger already contains takes the skip branch of the
loop: state unchanged, one warning logged. -/
theorem processBlob_of_hasName (env : Env) (s : PState) (b : String)
    (h : hasName s.db b = true) :
    processBlob env s b = (s, [Event.logWarn (b ++ " has already been processed")]) := by
  unfold processBlob
  rw [check_availablity_eq_not_hasName, h]
  simp [optTruthy]

/-- After its loop iteration, a blob's name is always in the ledger: the new
branch inserts it, the skip branch required it. -/
theorem processBlob_hasName_self (env : Env) (s : PState) (b : String) :
    hasName (processBlob env s b).1.db b = true := by
  cases h : hasName s.db b with
  | false =>
    unfold processBlob
    rw [check_availablity_eq_not_hasName, h]
    simp [optTruthy, hasName_insert_self]
  | true =>
    rw [processBlob_of_hasName env s b h]
    exact h

/-- A loop iteration never removes a recorded name. -/
theorem processBlob_hasName_mono (env : Env) (s : PState) (b n : String)
    (h : hasName s.db n = true) :
    hasName (processBlob env s b).1.db n = true := by
  cases hb : hasName s.db b with
  | false =>
    unfold processBlob
    rw [check_availablity_eq_not_hasName, hb]
    simp only [Bool.not_false, optTruthy, if_true]
    exact hasName_insert_of_hasName s.db n b h
  | true =>
    rw [processBlob_of_hasName env s b hb]
    exact h

/-- A whole run never removes a recorded name. -/
theorem runBlobs_hasName_mono (env : Env) (blobs : List String) :
    ∀ (s : PState) (n : String), hasName s.db n = true →
      hasName (runBlobs env s blobs).1.db n = true := by
  induction blobs with
  | nil =>
    intro s n h
    simpa [runBlobs] using h
  | cons b bs ih =>
    intro s n h
    simp only [runBlobs]
    exact ih _ n (processBlob_hasName_mono env s b n h)

/-- After a run, every listed blob's name is in the ledger. -/
theorem runBlobs_records_all (env : Env) (blobs : List String) :
    ∀ (s : PState), ∀ b ∈ blobs, hasName (runBlobs env s blobs).1.db b = true := by
  induction blobs with
  | nil =>
    intro s b hb
    cases hb
  | cons c cs ih =>
    intro s b hb
    simp only [runBlobs]
    rcases List.mem_cons.mp hb with rfl | h
    · exact runBlobs_hasName_mono env cs _ b (processBlob_hasName_self env s b)
    · exact ih _ b h

/-- A run over blobs that are all already recorded only logs skips and leaves
the state untouched. -/
theorem runBlobs_all_seen (env : Env) (blobs : List String) :
    ∀ (s : PState), (∀ b ∈ blobs, hasName s.db b = true) →
      runBlobs env s blobs
        = (s, blobs.map (fun b => Event.logWarn (b ++ " has already been processed"))) := by
  induction blobs with
  | nil =>
    intro s h
    simp [runBlobs]
  | cons c cs ih =>
    intro s h
    have hc : hasName s.db c = true := h c (List.mem_cons_self c cs)
    have hskip := processBlob_of_hasName env s c hc
    simp only [runBlobs, hskip]
    rw [ih s (fun b hb => h b (List.mem_cons_of_mem c hb))]
    simp

/-- The generator loop produces one document per chunk. -/
theorem documentGeneratorGo_length (gen : Nat → String) (name : String) (i : Nat) (cs : List String) :
    (documentGeneratorGo gen name i cs).length = cs.length := by
  induction cs generalizing i with
  | nil => rfl
  | cons c cs ih => simp [documentGeneratorGo, ih]

/-- Every document the generator loop produces carries the source file name. -/
theorem documentGeneratorGo_meta (gen : Nat → String) (name : String) (i : Nat) (cs : List String) :
    ∀ d ∈ documentGeneratorGo gen name i cs, d.metadata_storage_path = name := by
  induction cs generalizing i with
  | nil =>
    intro d hd
    cases hd
  | cons c cs ih =>
    intro d hd
    rcases List.mem_cons.mp hd with rfl | h
    · rfl
    · exact ih _ d h

/-- The ids the generator loop produces are exactly the short prefixes of the
identifiers consumed at the positions it visits. -/
theorem documentGeneratorGo_id_mem (gen : Nat → String) (name : String) (cs : List String) :
    ∀ (i : Nat) (x : String),
      (x ∈ (documentGeneratorGo gen name i cs).map UploadDocument.id
        ↔ ∃ j, j < cs.length ∧ x = shortId (gen (i + j))) := by
  induction cs with
  | nil =>
    intro i x
    simp [documentGeneratorGo]
  | cons c cs ih =>
    intro i x
    simp only [documentGeneratorGo, List.map_cons, List.mem_cons, ih (i + 1) x]
    constructor
    · rintro (rfl | ⟨j, hj, rfl⟩)
      · exact ⟨0, by simp, by simp⟩
      · exact ⟨j + 1, by simpa using hj, by rw [show i + (j + 1) = i + 1 + j by omega]⟩
    · rintro ⟨j, hj, rfl⟩
      cases j with
      | zero => left; simp
      | succ j =>
        right
        exact ⟨j, by simpa using hj, by rw [show i + (j + 1) = i + 1 + j by omega]⟩

/-- When the short prefixes of the consumed identifiers are pairwise distinct,
the generated ids are pairwise distinct. -/
theorem documentGeneratorGo_ids_nodup (gen : Nat → String) (name : String) (cs : List String) :
    ∀ (i : Nat),
      (∀ j, j < cs.length → ∀ k, k < cs.length → j ≠ k →
        shortId (gen (i + j)) ≠ shortId (gen (i + k))) →
      ((documentGeneratorGo gen name i cs).map UploadDocument.id).Nodup := by
  induction cs with
  | nil =>
    intro i h
    simp [documentGeneratorGo]
  | cons c cs ih =>
    intro i h
    simp only [documentGeneratorGo, List.map_cons, List.nodup_cons]
    constructor
    · intro hmem
      obtain ⟨j, hj, heq⟩ := (documentGeneratorGo_id_mem gen name cs (i + 1) (shortId (gen i))).mp hmem
      apply h 0 (by simp) (j + 1) (by simpa using hj) (by omega)
      rw [Nat.add_zero, show i + (j + 1) = i + 1 + j by omega]
      exact heq
    · apply ih (i + 1)
      intro j hj k hk hjk
      have := h (j + 1) (by simpa using hj) (k + 1) (by simpa using hk) (by omega)
      rw [show i + (j + 1) = i + 1 + j by omega, show i + (k + 1) = i + 1 + k by omega] at this
      exact this

/-- Every block the hard fallback cuts with enough fuel has length at most `S`. -/
theorem chopGo_length_le (S : Nat) (hS : 1 ≤ S) :
    ∀ (fuel : Nat) (cs : List Char), cs.length ≤ fuel →
      ∀ p ∈ chopGo S fuel cs, p.length ≤ S := by
  intro fuel
  induction fuel with
  | zero =>
    intro cs hcs p hp
    cases cs with
    | nil => cases hp
    | cons c cs => simp at hcs
  | succ fuel ih =>
    intro cs hcs p hp
    cases cs with
    | nil => cases hp
    | cons c cs =>
      rcases List.mem_cons.mp hp with rfl | h2
      · simp [List.length_take]
      · apply ih (List.drop S (c :: cs)) _ p h2
        simp only [List.length_drop, List.length_cons]
        simp only [List.length_cons] at hcs
        omega

/-- Every piece the separator hierarchy produces has length at most `S`. -/
theorem splitPieces_le (S : Nat) (hS : 1 ≤ S) (cs : List Char) :
    ∀ p ∈ splitPieces S cs, p.length ≤ S := by
  intro p hp
  unfold splitPieces at hp
  rcases List.mem_flatMap.mp hp with ⟨a, ha, hpa⟩
  by_cases h1 : a.length ≤ S
  · rw [if_pos h1] at hpa
    rcases List.mem_singleton.mp hpa with rfl
    exact h1
  · rw [if_neg h1] at hpa
    rcases List.mem_flatMap.mp hpa with ⟨b, hb, hpb⟩
    by_cases h2 : b.length ≤ S
    · rw [if_pos h2] at hpb
      rcases List.mem_singleton.mp hpb with rfl
      exact h2
    · rw [if_neg h2] at hpb
      rcases List.mem_flatMap.mp hpb with ⟨c, hc, hpc⟩
      by_cases h3 : c.length ≤ S
      · rw [if_pos h3] at hpc
        rcases List.mem_singleton.mp hpc with rfl
        exact h3
      · rw [if_neg h3] at hpc
        unfold chop at hpc
        exact chopGo_length_le S hS c.length c (le_refl _) p hpc

/-- Every chunk the merge step emits has length at most `S`, provided the
buffer and all pieces are within the bound. -/
theorem mergeGo_length_le (S O : Nat) (ps : List (List Char)) :
    ∀ (buf : List Char), buf.length ≤ S → (∀ p ∈ ps, p.length ≤ S) →
      ∀ c ∈ mergeGo S O buf ps, c.length ≤ S := by
  induction ps with
  | nil =>
    intro buf hbuf hps c hc
    unfold mergeGo at hc
    by_cases hb : buf.isEmpty
    · rw [if_pos hb] at hc
      cases hc
    · rw [if_neg hb] at hc
      rcases List.mem_singleton.mp hc with rfl
      exact hbuf
  | cons p ps ih =>
    intro buf hbuf hps c hc
    unfold mergeGo at hc
    by_cases hfit : buf.length + p.length ≤ S
    · rw [if_pos hfit] at hc
      apply ih (buf ++ p) _ (fun q hq => hps q (List.mem_cons_of_mem _ hq)) c hc
      simp only [List.length_append]
      omega
    · rw [if_neg hfit] at hc
      rcases List.mem_cons.mp hc with rfl | hc2
      · exact hbuf
      · refine ih _ ?_ (fun q hq => hps q (List.mem_cons_of_mem _ hq)) c hc2
        by_cases hseed : (takeLast O buf).length + p.length ≤ S
        · rw [if_pos hseed]
          simp only [List.length_append]
          omega
        · rw [if_neg hseed]
          exact hps p (List.mem_cons_self _ _)

/-- Every chunk `split_text` produces has length at most `S` when `1 ≤ S`. -/
theorem split_text_length_le (S O : Nat) (hS : 1 ≤ S) (text : String) :
    ∀ c ∈ split_text S O text, c.length ≤ S := by
  intro c hc
  unfold split_text at hc
  rcases List.mem_map.mp hc with ⟨cs, hcs, rfl⟩
  have hlen := mergeGo_length_le S O (splitPieces S text.toList) [] (by simp)
    (splitPieces_le S hS text.toList) cs hcs
  simpa using hlen

/-- C1: in `trigger_pipeline`, the ledger record for a file is written
unconditionally after the upload call returns: `__upload_documents` catches and
logs any upload exception without re-raising, so for every new file whose
upload fails, the `upload_documents` call is made, the failure is only logged,
`__insert_new_file_into_db` still runs, and the file ends up marked as
ingested. -/
theorem failed_upload_still_recorded (env : Env) (s : PState) (b : String)
    (hnew : check_availablity s.db b false = some true)
    (hfail : env.uploadOk (builtDocs env s b) = false) :
    Event.uploadCall (builtDocs env s b) ∈ (processBlob env s b).2
    ∧ Event.logError "Failed uploading of documents" ∈ (processBlob env s b).2
    ∧ Event.insertRow b ∈ (processBlob env s b).2
    ∧ (processBlob env s b).1.db = insert_new_file_into_db s.db b
    ∧ check_availablity (processBlob env s b).1.db b false = some false := by
  have hN : hasName s.db b = false := by
    rw [check_availablity_eq_not_hasName] at hnew
    simpa using hnew
  unfold processBlob
  rw [check_availablity_eq_not_hasName, hN]
  simp [optTruthy, upload_documents, hfail, check_availablity_eq_not_hasName,
    hasName_insert_self]

/-- Witness for C1 at a concrete new file and an always-failing upload
service. -/
theorem failed_upload_still_recorded_witness :
    check_availablity emptyState.db "a.pdf" false = some true
    ∧ failingUploadEnv.uploadOk (builtDocs failingUploadEnv emptyState "a.pdf") = false
    ∧ (Event.uploadCall (builtDocs failingUploadEnv emptyState "a.pdf")
          ∈ (processBlob failingUploadEnv emptyState "a.pdf").2
       ∧ Event.logError "Failed uploading of documents"
          ∈ (processBlob failingUploadEnv emptyState "a.pdf").2
       ∧ Event.insertRow "a.pdf" ∈ (processBlob failingUploadEnv emptyState "a.pdf").2
       ∧ (processBlob failingUploadEnv emptyState "a.pdf").1.db
          = insert_new_file_into_db emptyState.db "a.pdf"
       ∧ check_availablity (processBlob failingUploadEnv emptyState "a.pdf").1.db "a.pdf" false
          = some false) :=
  ⟨by decide, rfl, failed_upload_still_recorded failingUploadEnv emptyState "a.pdf" (by decide) rfl⟩

/-- C2: running `trigger_pipeline` twice against the same unchanged blob
container ingests each file at most once: after the first run every listed
blob's ledger check returns false, and the second run changes no state, uploads
no documents, and inserts no ledger rows — it is exactly the opening log line
followed by one skip warning per blob. -/
theorem second_run_ingests_nothing (env : Env) (s : PState) (blobs : List String) :
    (∀ b ∈ blobs, check_availablity (trigger_pipeline env s blobs).1.db b false = some false)
    ∧ trigger_pipeline env (trigger_pipeline env s blobs).1 blobs
        = ((trigger_pipeline env s blobs).1,
           Event.logInfo "Pipeline Triggered"
             :: blobs.map (fun b => Event.logWarn (b ++ " has already been processed")))
    ∧ (∀ e ∈ (trigger_pipeline env (trigger_pipeline env s blobs).1 blobs).2,
        (∀ d, e ≠ Event.uploadCall d) ∧ (∀ m, e ≠ Event.insertRow m)) := by
  have hall : ∀ b ∈ blobs, hasName (trigger_pipeline env s blobs).1.db b = true := by
    intro b hb
    simpa [trigger_pipeline] using runBlobs_records_all env blobs s b hb
  have hrun2 : runBlobs env (trigger_pipeline env s blobs).1 blobs
      = ((trigger_pipeline env s blobs).1,
         blobs.map (fun b => Event.logWarn (b ++ " has already been processed"))) :=
    runBlobs_all_seen env blobs _ hall
  have hunfold : trigger_pipeline env (trigger_pipeline env s blobs).1 blobs
      = ((runBlobs env (trigger_pipeline env s blobs).1 blobs).1,
         Event.logInfo "Pipeline Triggered"
           :: (runBlobs env (trigger_pipeline env s blobs).1 blobs).2) := rfl
  have heq : trigger_pipeline env (trigger_pipeline env s blobs).1 blobs
      = ((trigger_pipeline env s blobs).1,
         Event.logInfo "Pipeline Triggered"
           :: blobs.map (fun b => Event.logWarn (b ++ " has already been processed"))) := by
    rw [hunfold, hrun2]
  refine ⟨?_, heq, ?_⟩
  · intro b hb
    rw [check_availablity_eq_not_hasName, hall b hb]
    rfl
  · intro e he
    rw [heq] at he
    simp only [List.mem_cons] at he
    rcases he with rfl | hIn
    · exact ⟨fun d => by simp, fun m => by simp⟩
    · obtain ⟨b, hb, rfl⟩ := List.mem_map.mp hIn
      exact ⟨fun d => by simp, fun m => by simp⟩

/-- C3: once `__insert_new_file_into_db` has recorded a name, every subsequent
`__check_availablity` of that name returns false, whatever further inserts of
other names happen in between. -/
theorem record_then_always_seen (db : DB) (n : String) (ops : List String)
    (hops : ∀ m ∈ ops, m ≠ n) :
    check_availablity (ops.foldl insert_new_file_into_db (insert_new_file_into_db db n)) n false
      = some false := by
  have hkeep : ∀ (l : List String) (d : DB), hasName d n = true →
      hasName (l.foldl insert_new_file_into_db d) n = true := by
    intro l
    induction l with
    | nil =>
      intro d h
      simpa using h
    | cons c cs ih =>
      intro d h
      exact ih _ (hasName_insert_of_hasName d n c h)
  rw [check_availablity_eq_not_hasName, hkeep ops _ (hasName_insert_self db n)]
  rfl

/-- Witness for C3: record `a.pdf`, then insert two other names; the check of
`a.pdf` still returns false. -/
theorem record_then_always_seen_witness :
    (∀ m ∈ ["b.pdf", "c.pdf"], m ≠ "a.pdf")
    ∧ check_availablity
        ((["b.pdf", "c.pdf"]).foldl insert_new_file_into_db
          (insert_new_file_into_db { nextId := 0, rows := [] } "a.pdf")) "a.pdf" false
        = some false :=
  ⟨by decide,
   record_then_always_seen { nextId := 0, rows := [] } "a.pdf" ["b.pdf", "c.pdf"] (by decide)⟩

/-- C4: `__check_availablity` returns true exactly when no row of
`checked_files` carries the queried name; and when the storage query raises,
the exception is swallowed, only logged, and the call yields Python `None`
(falsy/empty) instead of propagating. -/
theorem check_availablity_spec (db : DB) (n : String) :
    (check_availablity db n false = some true ↔ ∀ r ∈ db.rows, r.file_name ≠ n)
    ∧ check_availablity db n true = none := by
  refine ⟨?_, rfl⟩
  rw [check_availablity_eq_not_hasName]
  simp [hasName, List.any_eq_true]

/-- C5: the ledger's record operation is not idempotent: inserting the same
name twice adds two rows carrying that name, distinguished only by their
synthetic primary keys. -/
theorem record_not_idempotent (db : DB) (n : String) :
    ((insert_new_file_into_db (insert_new_file_into_db db n) n).rows.filter
        (fun r => r.file_name == n)).length
      = (db.rows.filter (fun r => r.file_name == n)).length + 2
    ∧ ({ id := db.nextId, file_name := n } : Row)
        ∈ (insert_new_file_into_db (insert_new_file_into_db db n) n).rows
    ∧ ({ id := db.nextId + 1, file_name := n } : Row)
        ∈ (insert_new_file_into_db (insert_new_file_into_db db n) n).rows
    ∧ db.nextId ≠ db.nextId + 1 := by
  refine ⟨?_, ?_, ?_, by omega⟩
  · simp [insert_new_file_into_db, List.filter_append]
  · simp [insert_new_file_into_db]
  · simp [insert_new_file_into_db]

/-- C6 counterexample: distinctness of the generated ids is NOT guaranteed by
`__document_generator`.  The identifier supply `uuidGenDemo` produces distinct
(fresh) identifiers for every call — in particular for the two calls made here
— yet the two documents built from two chunks carry the SAME id, because the id
is only the prefix of the identifier before the first dash, and truncation does
not preserve distinctness. -/
theorem document_generator_id_collision :
    uuidGenDemo 0 ≠ uuidGenDemo 1
    ∧ (document_generator uuidGenDemo ["c1", "c2"] "f.pdf").length = 2
    ∧ (document_generator uuidGenDemo ["c1", "c2"] "f.pdf").map UploadDocument.id
        = ["aaaaaaaa", "aaaaaaaa"]
    ∧ ¬ ((document_generator uuidGenDemo ["c1", "c2"] "f.pdf").map UploadDocument.id).Nodup :=
  ⟨by decide, by decide, by decide, by decide⟩

/-- C6 amended: `__document_generator` returns exactly `len(chunks)` documents,
each with `metadata_storage_path` equal to the given file name and with id the
short prefix of its freshly generated identifier; the ids are pairwise distinct
provided the short prefixes of the identifiers consumed by this call are
pairwise distinct (freshness of the full identifiers alone does not ensure
this). -/
theorem document_generator_spec (gen : Nat → String) (chunks : List String) (name : String)
    (hids : ∀ i, i < chunks.length → ∀ j, j < chunks.length → i ≠ j →
      shortId (gen i) ≠ shortId (gen j)) :
    (document_generator gen chunks name).length = chunks.length
    ∧ (∀ d ∈ document_generator gen chunks name, d.metadata_storage_path = name)
    ∧ ((document_generator gen chunks name).map UploadDocument.id).Nodup := by
  refine ⟨documentGeneratorGo_length gen name 0 chunks,
    documentGeneratorGo_meta gen name 0 chunks, ?_⟩
  apply documentGeneratorGo_ids_nodup gen name chunks 0
  intro j hj k hk hjk
  simpa using hids j hj k hk hjk

/-- Witness for the amended C6 at a concrete supply with distinct short
prefixes. -/
theorem document_generator_spec_witness :
    (∀ i, i < (["a", "b"] : List String).length → ∀ j, j < (["a", "b"] : List String).length →
      i ≠ j → shortId (freshGenDemo i) ≠ shortId (freshGenDemo j))
    ∧ ((document_generator freshGenDemo ["a", "b"] "f.pdf").length
          = (["a", "b"] : List String).length
       ∧ (∀ d ∈ document_generator freshGenDemo ["a", "b"] "f.pdf",
            d.metadata_storage_path = "f.pdf")
       ∧ ((document_generator freshGenDemo ["a", "b"] "f.pdf").map UploadDocument.id).Nodup) :=
  ⟨by decide, document_generator_spec freshGenDemo ["a", "b"] "f.pdf" (by decide)⟩

/-- C7: for `overlap < size`, every chunk `__chunk_text` produces has length at
most `size`, and the empty text yields an empty chunk sequence (splitter
spec-modelled, see `split_text`). -/
theorem chunk_length_bound (S O : Nat) (text : String) (h : O < S) :
    (∀ c ∈ chunk_text S O text, c.length ≤ S) ∧ chunk_text S O "" = [] := by
  refine ⟨split_text_length_le S O (by omega) text, ?_⟩
  show (mergeGo S O [] (splitPieces S [])).map (fun cs => String.mk cs) = []
  have h1 : splitPieces S ([] : List Char) = [[]] := by
    unfold splitPieces
    show ([([] : List Char)]).flatMap _ = [[]]
    simp
  have h2 : mergeGo S O [] [([] : List Char)] = [] := by
    simp [mergeGo]
  rw [h1, h2]
  rfl

/-- Witness for C7 at concrete size 3, overlap 1, and a two-line text. -/
theorem chunk_length_bound_witness :
    1 < 3
    ∧ ((∀ c ∈ chunk_text 3 1 "ab\ncd", c.length ≤ 3) ∧ chunk_text 3 1 "" = []) :=
  ⟨by decide, chunk_length_bound 3 1 "ab\ncd" (by decide)⟩

/-- C8: a blob whose name the ledger check reports as already processed causes
no side effects: `trigger_pipeline`'s loop iteration for it performs no
download, no extraction, no upload, inserts no ledger row, and leaves the state
unchanged — its entire effect is the one skip warning. -/
theorem skip_path_no_side_effects (env : Env) (s : PState) (b : String)
    (hseen : check_availablity s.db b false = some false) :
    processBlob env s b = (s, [Event.logWarn (b ++ " has already been processed")]) := by
  have hN : hasName s.db b = true := by
    rw [check_availablity_eq_not_hasName] at hseen
    simpa using hseen
  exact processBlob_of_hasName env s b hN

/-- Witness for C8 at a ledger that already records `a.pdf`. -/
theorem skip_path_no_side_effects_witness :
    check_availablity seenState.db "a.pdf" false = some false
    ∧ processBlob sampleEnv seenState "a.pdf"
        = (seenState, [Event.logWarn ("a.pdf" ++ " has already been processed")]) :=
  ⟨by decide, skip_path_no_side_effects sampleEnv seenState "a.pdf" (by decide)⟩

/-- C9: the extractor does not operate on the path of the blob just
downloaded. `__get_file_name` returns the FIRST entry of the `temp/blob`
directory listing, so the extraction path equals the downloaded blob's path
only when the scratch directory held nothing else; with a leftover file
present, a different file is extracted while the documents are still indexed
under the current blob's name. -/
theorem extractor_uses_first_directory_entry :
    (∀ ty listing, get_file_name ty listing
        = (listing.map (fun f => "temp/" ++ ty ++ "/" ++ f)).head?)
    ∧ (∀ (db : DB) (ctr : Nat) (f : String),
        extractPathOf { db := db, tempBlob := [], uuidCtr := ctr } f
          = "temp/blob/" ++ lastSegment f)
    ∧ extractPathOf { db := { nextId := 0, rows := [] }, tempBlob := ["other.pdf"], uuidCtr := 0 }
        "mine.pdf" = "temp/blob/other.pdf"
    ∧ "temp/blob/other.pdf" ≠ "temp/blob/" ++ lastSegment "mine.pdf"
    ∧ Event.extractFrom "temp/blob/other.pdf"
        ∈ (processBlob sampleEnv
            { db := { nextId := 0, rows := [] }, tempBlob := ["other.pdf"], uuidCtr := 0 }
            "mine.pdf").2
    ∧ ∀ d ∈ builtDocs sampleEnv
          { db := { nextId := 0, rows := [] }, tempBlob := ["other.pdf"], uuidCtr := 0 }
          "mine.pdf",
        d.metadata_storage_path = "mine.pdf" := by
  refine ⟨fun ty listing => rfl, ?_, by decide, by decide, by decide, by decide⟩
  intro db ctr f
  simp [extractPathOf, get_file_name, file_paths, writeTempFile]

/-- C10 counterexample: with `index_name = ''`, the validation branch of
`__init__` assigns nothing (the `ValueError` is constructed and discarded), and
`__init__` does NOT return normally: the subsequent
`SearchClient(endpoint, self.index_name, credential)` reads the never-assigned
attribute and an `AttributeError` escapes to the caller. -/
theorem init_invalid_name_not_normal_return :
    validateIndexName (PyVal.pstr "") = none
    ∧ initIndexName (PyVal.pstr "") = Except.error (PyError.attributeError "index_name") :=
  ⟨rfl, rfl⟩

/-- C10 amended: for every `index_name` that is the empty string or not a
str/int, the validation branch of `__init__` logs an error, builds and discards
the `ValueError` without raising it, and leaves `self.index_name` unassigned —
so no `ValueError` reaches the caller; but `__init__` does not return normally:
the `SearchClient` construction then reads the unassigned `self.index_name` and
an `AttributeError` reaches the caller. -/
theorem init_invalid_name_attribute_error (v : PyVal)
    (h : (isStrOrInt v && notEmptyStr v) = false) :
    validateIndexName v = none
    ∧ initIndexName v = Except.error (PyError.attributeError "index_name") := by
  have h1 : validateIndexName v = none := by
    simp [validateIndexName, h]
  exact ⟨h1, by simp [initIndexName, h1, initSearchClientStep]⟩

/-- Witness for the amended C10 at the empty-string index name. -/
theorem init_invalid_name_attribute_error_witness :
    (isStrOrInt (PyVal.pstr "") && notEmptyStr (PyVal.pstr "")) = false
    ∧ (validateIndexName (PyVal.pstr "") = none
       ∧ initIndexName (PyVal.pstr "")
          = Except.error (PyError.attributeError "index_name")) :=
  ⟨by decide, init_invalid_name_attribute_error (PyVal.pstr "") (by decide)⟩

end BlobAISearch
